import Mathlib

/-!
Verification of the PyGamma stack-coregistration core.

This file gives a shallow embedding, in Lean 4, of the parts of the
PyGamma repository that its specification talks about:

* the coregistration tree builder (`find_scenes_in_range`,
  `create_secondary_coreg_tree`, `get_coreg_date_pairs` in
  `insar/scripts/process_gamma.py`),
* the burst-overlap refinement of the fine coregistration loop
  (`S1_COREG_OVERLAP`, `fine_coregistration`, `READ_TAB` in
  `insar/coregister_slc.py`),
* the per-node error handling of the Luigi task wrappers
  (`ProcessIFG.run`, `ProcessBackscatter.run`) and the resume scan
  (`CreateProcessIFGs.trigger_resume`).

Calendar dates are embedded as integers (day numbers); the ordering and
subtraction used by the Python code on `datetime.date` values is exactly
integer ordering and subtraction on day numbers.  Floating point values
are embedded as rationals (exact arithmetic); Python's `round(x, 6)` is
embedded as rounding to the nearest multiple of 10⁻⁶.  Out-of-process
toolkit invocations are abstracted by the data they return, and fallible
Python code is embedded with `Except`, where `Except.error` marks a
raised exception.
-/

deriving instance DecidableEq for Except

namespace PyGamma

/-! ## Tree builder: `find_scenes_in_range` (process_gamma.py:130-209)

The fold state mirrors the local variables of the Python loop body:
`tree_lhs`, `tree_rhs`, `closest_lhs`, `closest_rhs`, `closest_lhs_diff`,
`closest_rhs_diff`.  Note that in the source, `closest_lhs_diff = dt_diff`
is executed unconditionally (it is not guarded by `is_closer`), which the
embedding reproduces. -/

structure FsirState where
  tree_lhs : List ℤ
  tree_rhs : List ℤ
  closest_lhs : Option ℤ
  closest_rhs : Option ℤ
  closest_lhs_diff : Option ℤ
  closest_rhs_diff : Option ℤ
deriving DecidableEq

def fsirInit : FsirState := ⟨[], [], none, none, none, none⟩

/-- One iteration of the `for dt in date_list` loop of
`find_scenes_in_range`.  `d = dt - primary_dt`; scenes matching the
primary date are skipped; the closest-scene bookkeeping runs before the
threshold test; scenes outside the threshold window are then skipped. -/
def fsirStep (primary thres : ℤ) (st : FsirState) (dt : ℤ) : FsirState :=
  let d := dt - primary
  if d = 0 then st
  else
    let st1 :=
      if d < 0 then
        let isCloser :=
          match st.closest_lhs, st.closest_lhs_diff with
          | none, _ => true
          | some _, some c => decide (c < d)
          | some _, none => true
        { st with
            closest_lhs := if isCloser then some dt else st.closest_lhs,
            closest_lhs_diff := some d }
      else
        let isCloser :=
          match st.closest_rhs, st.closest_rhs_diff with
          | none, _ => true
          | some _, some c => decide (d < c)
          | some _, none => true
        { st with
            closest_rhs := if isCloser then some dt else st.closest_rhs,
            closest_rhs_diff := some d }
    if thres < |d| then st1
    else if d < 0 then { st1 with tree_lhs := st1.tree_lhs ++ [dt] }
    else { st1 with tree_rhs := st1.tree_rhs ++ [dt] }

/-- Embedding of `find_scenes_in_range(primary_dt, date_list, thres_days,
include_closest)`: fold the loop body over the date list, then apply the
closest-scene fallback to each side that ended up empty. -/
def find_scenes_in_range (primary : ℤ) (date_list : List ℤ) (thres : ℤ)
    (include_closest : Bool) : List ℤ × List ℤ :=
  let st := date_list.foldl (fsirStep primary thres) fsirInit
  let lhs :=
    if include_closest && st.tree_lhs.isEmpty then
      match st.closest_lhs with
      | some c => [c]
      | none => st.tree_lhs
    else st.tree_lhs
  let rhs :=
    if include_closest && st.tree_rhs.isEmpty then
      match st.closest_rhs with
      | some c => [c]
      | none => st.tree_rhs
    else st.tree_rhs
  (lhs, rhs)

/-! ## Tree builder: `create_secondary_coreg_tree` (process_gamma.py:212-261) -/

/-- Body of the `while len(last_list) > 0` loop: the next tier is the
`lhs` extension of the tier's first date (when that date precedes the
primary) concatenated with the `rhs` extension of the tier's last date
(when that date follows the primary). -/
def coregStep (primary thres : ℤ) (date_list : List ℤ) (l : List ℤ) : List ℤ :=
  match l.head?, l.getLast? with
  | some h, some t =>
      (if h < primary then (find_scenes_in_range h date_list thres true).1 else [])
        ++ (if primary < t then (find_scenes_in_range t date_list thres true).2 else [])
  | _, _ => []

/-- Fuelled unfolding of the `while` loop of `create_secondary_coreg_tree`.
The Python loop carries no fuel; `coregTree_fuel_stable` below shows the
fuel is irrelevant once it exceeds `2 * date_list.length`, which is the
termination argument for the source loop. -/
def coregTreeAux (primary thres : ℤ) (date_list : List ℤ) :
    ℕ → List ℤ → List (List ℤ)
  | 0, _ => []
  | fuel + 1, l =>
      if l = [] then []
      else l :: coregTreeAux primary thres date_list fuel (coregStep primary thres date_list l)

/-- Embedding of `create_secondary_coreg_tree(primary_dt, date_list, thres_days)`:
tier 1 is `lhs ++ rhs` of the primary date, and each later tier extends the
previous tier's extremal dates. -/
def create_secondary_coreg_tree (primary : ℤ) (date_list : List ℤ) (thres : ℤ) :
    List (List ℤ) :=
  let fst := find_scenes_in_range primary date_list thres true
  coregTreeAux primary thres date_list (2 * date_list.length + 1) (fst.1 ++ fst.2)

/-! ## Tree edges: `get_coreg_date_pairs` (process_gamma.py:264-293)

The function reads the per-tier list files back from disk; the embedding
takes the tier contents directly (dates as `YYYYMMDD`-style integers,
whose ordering agrees with date ordering).  The state `(coreg_ref_scene,
slc_scene)` persists across tiers exactly as the Python local variables
do, and reading a line from an empty previous list file, or using an
unbound variable, is an `Except.error` (the Python `IndexError` /
`NameError`). -/

/-- The inner `for slc_scene in list_date_strings` loop of a non-first
tier: `coreg_ref_scene` is set from the first (resp. last) line of the
previous tier's list file when the scene precedes (resp. follows) the
primary scene, and is left unchanged on the `continue` branch; the loop
variable `slc_scene` is updated on every iteration, including the one
that hits `continue`. -/
def coregRefFold (primary : ℤ) (prevTier : List ℤ) :
    List ℤ → Option ℤ × Option ℤ → Except Unit (Option ℤ × Option ℤ)
  | [], st => .ok st
  | scene :: rest, (ref, _) =>
      if scene < primary then
        match prevTier.head? with
        | none => .error ()
        | some h => coregRefFold primary prevTier rest (some h, some scene)
      else if primary < scene then
        match prevTier.getLast? with
        | none => .error ()
        | some t => coregRefFold primary prevTier rest (some t, some scene)
      else
        coregRefFold primary prevTier rest (ref, some scene)

/-- The `for secondaries_list in list_dir.glob(...)` loop, taken in tier
order.  Tier 1 contributes one `(primary, date)` pair per listed date;
every later tier executes the inner loop and then appends a single pair
built from the final values of `coreg_ref_scene` and `slc_scene` (the
`pairs.append` in the source sits outside the inner loop). -/
def coregPairsAux (primary : ℤ) :
    ℕ → List (List ℤ) → List ℤ → Option ℤ × Option ℤ → Except Unit (List (ℤ × ℤ))
  | _, [], _, _ => .ok []
  | idx, tier :: rest, prev, st =>
      if idx = 1 then
        match coregPairsAux primary (idx + 1) rest tier st with
        | .error e => .error e
        | .ok tail => .ok ((tier.map fun dt => (primary, dt)) ++ tail)
      else
        match coregRefFold primary prev tier st with
        | .error e => .error e
        | .ok (ref, last) =>
            match ref, last with
            | some r, some s =>
                match coregPairsAux primary (idx + 1) rest tier (some r, some s) with
                | .error e => .error e
                | .ok tail => .ok ((r, s) :: tail)
            | _, _ => .error ()

/-- Embedding of `get_coreg_date_pairs(outdir, proc_config)` over the tier
list contents written by the tree builder. -/
def get_coreg_date_pairs (primary : ℤ) (tiers : List (List ℤ)) :
    Except Unit (List (ℤ × ℤ)) :=
  coregPairsAux primary 1 tiers [] (none, none)

/-! ## Burst-overlap refinement: `S1_COREG_OVERLAP` (coregister_slc.py:533-1041)

A burst-overlap measurement is the `(mean, stdev, fraction)` triple read
back from `image_stat` on the unwrapped double-difference phase.  A burst
pair whose `mcf` unwrap fails contributes no measurement (`none`), which
the source skips with `continue`. -/

structure BurstSample where
  mean : ℚ
  stdev : ℚ
  fraction : ℚ
deriving DecidableEq

/-- Quality gate of `calc_phase_offsets`:
`fraction > secondary_s1_frac and stdev < secondary_s1_stdev`. -/
def sampleAccepted (fracThresh stdevThresh : ℚ) (s : BurstSample) : Bool :=
  decide (fracThresh < s.fraction) && decide (s.stdev < stdevThresh)

/-- Weight computed for an accepted sample:
`fraction / (stdev + 0.1) / (stdev + 0.1)`. -/
def sampleWeight (s : BurstSample) : ℚ :=
  s.fraction / (s.stdev + 1/10) / (s.stdev + 1/10)

/-- Per-subswath accumulator of `calc_phase_offsets`: the locals
`samples`, `sum`, `sum_weight` (the scene-wide `samples_all`, `sum_all`,
`sum_weight_all` accumulate the same increments). -/
structure OverlapAcc where
  samples : ℕ
  sum : ℚ
  sumWeight : ℚ
deriving DecidableEq

/-- One burst pair of the `for i in range(1, number_of_bursts_IWi)` loop:
an `mcf` failure contributes nothing; otherwise the sample passes the
quality gate and accumulates `mean * fraction` and `fraction`, or is
rejected. -/
def burstStep (fracThresh stdevThresh : ℚ) (acc : OverlapAcc)
    (ob : Option BurstSample) : OverlapAcc :=
  match ob with
  | none => acc
  | some s =>
      if sampleAccepted fracThresh stdevThresh s then
        ⟨acc.samples + 1, acc.sum + s.mean * s.fraction, acc.sumWeight + s.fraction⟩
      else acc

/-- Accumulation of `calc_phase_offsets(subswath_id, ...)` over the burst
pairs of one subswath. -/
def calc_phase_offsets (fracThresh stdevThresh : ℚ)
    (bursts : List (Option BurstSample)) : OverlapAcc :=
  bursts.foldl (burstStep fracThresh stdevThresh) ⟨0, 0, 0⟩

/-- Per-subswath average: `sum / sum_weight if samples > 0 else 0.0`. -/
def subswathAverage (acc : OverlapAcc) : ℚ :=
  if 0 < acc.samples then acc.sum / acc.sumWeight else 0

/-- Python's `round(x, 6)`: round to the nearest multiple of 10⁻⁶
(the source sets `round_to_6_digits = True`). -/
def round6 (q : ℚ) : ℚ :=
  (round (q * 1000000) : ℚ) / 1000000

/-- `dDC = round(1739.43 * azimuth_line_time * lines_offset, 6)`, where
`azimuth_line_time` has itself been rounded to 6 digits. -/
def dDC_calc (altRaw : ℚ) (linesOffset : ℤ) : ℚ :=
  round6 (173943/100 * round6 altRaw * (linesOffset : ℚ))

/-- `dt = round(0.159154 / dDC, 6)`. -/
def dt_calc (altRaw : ℚ) (linesOffset : ℤ) : ℚ :=
  round6 (159154/1000000 / dDC_calc altRaw linesOffset)

/-- `dpix_factor = round(dt / azimuth_line_time, 6)` — the constant `k`
computed once from the first subswath's burst timing parameters. -/
def dpix_factor_calc (altRaw : ℚ) (linesOffset : ℤ) : ℚ :=
  round6 (dt_calc altRaw linesOffset / round6 altRaw)

/-- Result of one `S1_COREG_OVERLAP` invocation that did not raise. -/
structure OverlapOut where
  iw1_mean : ℚ
  iw2_mean : ℚ
  iw3_mean : ℚ
  average_all : ℚ
  azimuth_pixel_offset : ℚ
deriving DecidableEq

/-- The scene-wide accumulator `samples_all` after the three
`calc_phase_offsets` calls. -/
def samples_all (fracThresh stdevThresh : ℚ) (iw1 iw2 iw3 : List (Option BurstSample)) : ℕ :=
  (calc_phase_offsets fracThresh stdevThresh iw1).samples
    + (calc_phase_offsets fracThresh stdevThresh iw2).samples
    + (calc_phase_offsets fracThresh stdevThresh iw3).samples

/-- The scene-wide accumulator `sum_all`. -/
def sum_all (fracThresh stdevThresh : ℚ) (iw1 iw2 iw3 : List (Option BurstSample)) : ℚ :=
  (calc_phase_offsets fracThresh stdevThresh iw1).sum
    + (calc_phase_offsets fracThresh stdevThresh iw2).sum
    + (calc_phase_offsets fracThresh stdevThresh iw3).sum

/-- The scene-wide accumulator `sum_weight_all`. -/
def sum_weight_all (fracThresh stdevThresh : ℚ) (iw1 iw2 iw3 : List (Option BurstSample)) : ℚ :=
  (calc_phase_offsets fracThresh stdevThresh iw1).sumWeight
    + (calc_phase_offsets fracThresh stdevThresh iw2).sumWeight
    + (calc_phase_offsets fracThresh stdevThresh iw3).sumWeight

/-- The scene-level average `average_all = sum_all / sum_weight_all`. -/
def average_all (fracThresh stdevThresh : ℚ) (iw1 iw2 iw3 : List (Option BurstSample)) : ℚ :=
  sum_all fracThresh stdevThresh iw1 iw2 iw3 / sum_weight_all fracThresh stdevThresh iw1 iw2 iw3

/-- Embedding of `S1_COREG_OVERLAP`: the azimuth-pixel conversion constant
is derived from the first subswath's (rounded) azimuth line time and burst
line offset; the three subswaths are accumulated in order; with zero
accepted samples stack-wide the source raises `CoregisterSlcException`
(`Except.error`), otherwise the scene average is converted to the azimuth
pixel offset `round(-dpix_factor * average_all, 6)`. -/
def S1_COREG_OVERLAP (altRaw : ℚ) (linesOffset : ℤ) (fracThresh stdevThresh : ℚ)
    (iw1 iw2 iw3 : List (Option BurstSample)) : Except Unit OverlapOut :=
  if 0 < samples_all fracThresh stdevThresh iw1 iw2 iw3 then
    .ok { iw1_mean := subswathAverage (calc_phase_offsets fracThresh stdevThresh iw1)
          iw2_mean := subswathAverage (calc_phase_offsets fracThresh stdevThresh iw2)
          iw3_mean := subswathAverage (calc_phase_offsets fracThresh stdevThresh iw3)
          average_all := average_all fracThresh stdevThresh iw1 iw2 iw3
          azimuth_pixel_offset :=
            round6 (-dpix_factor_calc altRaw linesOffset
              * average_all fracThresh stdevThresh iw1 iw2 iw3) }
  else .error ()

/-! ## Fine coregistration loop: `fine_coregistration` (coregister_slc.py:394-531)

The loop is abstracted over `step`, the outcome of iteration `it`'s
`S1_COREG_OVERLAP` call (`Except.error` = it raised
`CoregisterSlcException`, `.ok d` = it returned azimuth offset `d` and
updated `secondary_off`).  The offset-model file `secondary_off` is
tracked symbolically: `coarseInit` is its content as left by
`coarse_registration`, `coarseDoff` the coarse `.doff` copied over it,
and `fineUpdated k` its content after the k-th successful overlap
update. -/

inductive OffModel
  | coarseInit
  | coarseDoff
  | fineUpdated (k : ℕ)
deriving DecidableEq

/-- A successful `S1_COREG_OVERLAP` writes `secondary_off` (via
`set_value`), advancing the update count. -/
def bumpOff : OffModel → OffModel
  | .fineUpdated k => .fineUpdated (k + 1)
  | _ => .fineUpdated 1

/-- The `for iteration in range(1, max_iteration + 1)` loop with its
`try/except CoregisterSlcException`: a successful iteration updates `daz`
and the offset model and breaks once `abs(daz) <= target`; a raising
iteration is caught, copies the coarse `.doff` over `secondary_off` when
it is the very first iteration, and breaks.  Returns the final `daz`,
offset model, and the final value of the `iteration` variable. -/
def fineLoopAux (target : ℚ) (step : ℕ → Except Unit ℚ) :
    ℕ → ℕ → Option ℚ → OffModel → Option ℚ × OffModel × ℕ
  | 0, it, daz, off => (daz, off, it - 1)
  | rem + 1, it, daz, off =>
      match step it with
      | .ok d =>
          if |d| ≤ target then (some d, bumpOff off, it)
          else fineLoopAux target step rem (it + 1) (some d) (bumpOff off)
      | .error _ => (daz, if it = 1 then .coarseDoff else off, it)

/-- Outcome of `fine_coregistration` past the coarse stage: the final
`daz`, final `secondary_off` content, final `iteration`, whether the
post-loop accuracy-warning block ran (`daz is None or abs(daz) >
target`), and whether it wrote the "Completely failed fine coregistration,
proceeded with coarse coregistration" line (the `daz is None` branch). -/
structure FineResult where
  daz : Option ℚ
  off : OffModel
  lastIteration : ℕ
  warned : Bool
  completeFail : Bool
deriving DecidableEq

/-- Embedding of the fine iteration loop and its trailing
accuracy-warning block.  The `except CoregisterSlcException` handler is
the only consumer of the overlap step's error, so the function is total:
an erroring iteration produces a `FineResult`, never a propagated
exception. -/
def fine_coregistration (target : ℚ) (step : ℕ → Except Unit ℚ)
    (maxIteration : ℕ) : FineResult :=
  let r := fineLoopAux target step maxIteration 1 none .coarseInit
  let warned :=
    match r.1 with
    | none => true
    | some d => decide (target < |d|)
  { daz := r.1
    off := r.2.1
    lastIteration := r.2.2
    warned := warned
    completeFail := warned && r.1.isNone }

/-! ## Tab files: `READ_TAB` (coregister_slc.py:55-86)

A tab file is embedded as its list of lines (the result of
`splitlines()`).  A line parses into a `(slc, par, TOPS_par)` record when
`line.split()` yields exactly the three fields the `tab_record` namedtuple
constructor requires; any other arity raises (`none` here, surfaced as
`Except.error`). -/

structure TabRecord where
  slc : String
  par : String
  TOPS_par : String
deriving DecidableEq

/-- Whitespace as it occurs inside a tab-file line (the lines come from
`splitlines()`, so newlines are already gone). -/
def isSpaceChar (c : Char) : Bool := c == ' ' || c == '\t'

/-- Splitting a character list on runs of whitespace, dropping empty
fields, accumulating the current field in reverse. -/
def splitTokensAux : List Char → List Char → List (List Char)
  | [], acc => if acc.isEmpty then [] else [acc.reverse]
  | c :: cs, acc =>
      if isSpaceChar c then
        if acc.isEmpty then splitTokensAux cs []
        else acc.reverse :: splitTokensAux cs []
      else splitTokensAux cs (c :: acc)

/-- Python's `str.split()` with no argument: split on runs of whitespace,
dropping empty fields. -/
def pysplit (s : String) : List String :=
  (splitTokensAux s.data []).map fun t => String.mk t

/-- Python's `len(line.strip()) > 0`: the line has a non-whitespace
character. -/
def hasContent (s : String) : Bool := s.data.any fun c => !(isSpaceChar c)

/-- `tab_record(*line.split())`: succeeds exactly on three fields. -/
def mkTabRecord (line : String) : Option TabRecord :=
  match pysplit line with
  | [a, b, c] => some ⟨a, b, c⟩
  | _ => none

/-- Embedding of `READ_TAB(tab_file)`: drop empty lines, then parse the
first line unconditionally (`lines[0]` raises `IndexError` on an empty
file) and the second and third lines only when present (`nrows > 1`,
`nrows > 2`). -/
def READ_TAB (fileLines : List String) :
    Except Unit (TabRecord × Option TabRecord × Option TabRecord) :=
  let lines := fileLines.filter fun l => hasContent l
  match lines with
  | [] => .error ()
  | l1 :: rest =>
      match mkTabRecord l1 with
      | none => .error ()
      | some r1 =>
          match rest with
          | [] => .ok (r1, none, none)
          | l2 :: rest2 =>
              match mkTabRecord l2 with
              | none => .error ()
              | some r2 =>
                  match rest2 with
                  | [] => .ok (r1, some r2, none)
                  | l3 :: _ =>
                      match mkTabRecord l3 with
                      | none => .error ()
                      | some r3 => .ok (r1, some r2, some r3)

/-! ## Task node boundaries: `ProcessIFG.run` (workflow/luigi/interferogram.py:42-151)
and `ProcessBackscatter.run` (workflow/luigi/backscatter.py:36-80)

A node's processing body either completes or raises; the embedding maps
each case to the pair (status-file content written, exception escaping
`run`).  `none` in the first component means the status file was never
written; `none` in the second means `run` returned normally. -/

inductive PyExn
  | procError
  | nameError
deriving DecidableEq

inductive BodyOutcome
  | ok
  | raises
deriving DecidableEq

/-- Embedding of `ProcessIFG.run`.  In the source the `try:` /
`except Exception` / `finally:` around the processing body is commented
out (the body sits under `if True:`), so `failed` stays `False`, the
status file is written (empty, meaning success) only on the normal path,
and an exception from the body escapes `run` with no status file
written. -/
def processIFG_run (body : BodyOutcome) : Option String × Option PyExn :=
  match body with
  | .ok => (some "", none)
  | .raises => (none, some .procError)

/-- Embedding of `ProcessBackscatter.run`.  The `except Exception:`
handler's first statement is `log.error(...)`, but no name `log` is bound
in that scope (the module imports `STATUS_LOGGER as LOG` only), so the
handler raises `NameError` before `failed = True` runs; the `finally:`
block still writes the status file with `"" ` (the success payload, since
`failed` is `False`), and the `NameError` escapes `run`. -/
def processBackscatter_run (body : BodyOutcome) : Option String × Option PyExn :=
  match body with
  | .ok => (some "", none)
  | .raises => (some "", some .nameError)

/-- The behaviour the node-boundary contract prescribes for a raising
body: catch, write the `FAILED` sentinel, return normally. -/
def nodeBoundaryContract : Option String × Option PyExn :=
  (some "FAILED", none)

/-! ## Resume scan: `CreateProcessIFGs.trigger_resume`
(workflow/luigi/interferogram.py:165-230)

The filesystem state the scan consults is embedded per date pair: whether
the two geocoded-coherence outputs exist, and the lines of the pair's
status file (of the pairs that have one).  The pair lists stand for the
interferogram list file and for the `*_ifg_*_status_logs.out` glob. -/

structure IfgPairFs where
  cohGeoExists : Bool
  cohGeoTiffExists : Bool
  statusLines : List String
deriving DecidableEq

structure IfgResumeFs where
  aggOutputExists : Bool
  listedPairs : List (ℤ × ℤ)
  statusFilePairs : List (ℤ × ℤ)
  pairFs : ℤ × ℤ → IfgPairFs

/-- The `len(contents) > 0 and "FAILED" in contents[0]` test. -/
def firstLineFailed (lines : List String) : Bool :=
  match lines with
  | [] => false
  | l :: _ => decide ("FAILED".toList <:+: l.toList)

/-- What one `trigger_resume` call does to the filesystem: whether it
removed its own aggregate status output, the de-duplicated re-processing
set it returns, and the per-pair status files it unlinked. -/
structure ResumeAction where
  aggRemoved : Bool
  reprocess : List (ℤ × ℤ)
  removedMarkers : List (ℤ × ℤ)
deriving DecidableEq

/-- Embedding of `CreateProcessIFGs.trigger_resume(reprocess_failed_scenes)`:
remove the aggregate output if it exists; collect listed pairs with both
geocode outputs missing; when `reprocess_failed_scenes`, also collect
pairs whose status file's first line contains `FAILED`; de-duplicate; then
unlink the status file of every collected pair that has one. -/
def trigger_resume (fs : IfgResumeFs) (reprocessFailedScenes : Bool) : ResumeAction :=
  let missing := fs.listedPairs.filter fun p =>
    !(fs.pairFs p).cohGeoExists && !(fs.pairFs p).cohGeoTiffExists
  let failed :=
    if reprocessFailedScenes then
      fs.statusFilePairs.filter fun p => firstLineFailed (fs.pairFs p).statusLines
    else []
  let reprocess := (missing ++ failed).dedup
  { aggRemoved := fs.aggOutputExists
    reprocess := reprocess
    removedMarkers := reprocess.filter fun p => fs.statusFilePairs.contains p }

/-! ## Specification-side definitions used to state the claims -/

/-- The accepted burst-pair samples of one subswath: measurements that
exist (unwrap did not fail) and pass the quality gate. -/
def acceptedOf (fracThresh stdevThresh : ℚ) (bursts : List (Option BurstSample)) :
    List BurstSample :=
  (bursts.filterMap id).filter (sampleAccepted fracThresh stdevThresh)

/-- Fraction-weighted mean of a list of samples:
`sum(mean_i * frac_i) / sum(frac_i)`. -/
def wmean (l : List BurstSample) : ℚ :=
  (l.map fun s => s.mean * s.fraction).sum / (l.map fun s => s.fraction).sum

/-- Ceiling division on naturals, for the tier bound of the spec. -/
def ceilDivNat (a b : ℕ) : ℕ := (a + b - 1) / b

/-- Termination measure for the tree-builder loop: the number of input
dates strictly before the tier's first date (when that date precedes the
primary) plus the number strictly after the tier's last date (when that
date follows the primary). -/
def coregMeasure (primary : ℤ) (date_list : List ℤ) (l : List ℤ) : ℕ :=
  (match l.head? with
   | some h => if h < primary then date_list.countP (fun x => decide (x < h)) else 0
   | none => 0)
  + (match l.getLast? with
     | some t => if primary < t then date_list.countP (fun x => decide (t < x)) else 0
     | none => 0)

/-- Invariant carried through the `find_scenes_in_range` fold: every
collected or closest-tracked date on the left (resp. right) side is an
input date strictly before (resp. after) the pivot. -/
def FsirInv (q : ℤ) (dates : List ℤ) (st : FsirState) : Prop :=
  (∀ x ∈ st.tree_lhs, x ∈ dates ∧ x < q)
    ∧ (∀ x, st.closest_lhs = some x → x ∈ dates ∧ x < q)
    ∧ (∀ x ∈ st.tree_rhs, x ∈ dates ∧ q < x)
    ∧ (∀ x, st.closest_rhs = some x → x ∈ dates ∧ q < x)

/-! ## Helper lemmas: tree-builder side conditions and termination -/

theorem ite_some_cases {c : Prop} [Decidable c] {o : Option ℤ} {dt x : ℤ}
    (hx : (if c then some dt else o) = some x) : x = dt ∨ o = some x := by
  split at hx
  · exact Or.inl (by injection hx with h; exact h.symm)
  · exact Or.inr hx

theorem fsirStep_inv (q th : ℤ) (dates : List ℤ) (st : FsirState) (dt : ℤ)
    (hdt : dt ∈ dates) (h : FsirInv q dates st) :
    FsirInv q dates (fsirStep q th st dt) := by
  obtain ⟨hl, hcl, hr, hcr⟩ := h
  unfold fsirStep
  dsimp only
  by_cases h0 : dt - q = 0
  · simpa [h0] using ⟨hl, hcl, hr, hcr⟩
  · simp only [h0, if_false]
    by_cases hneg : dt - q < 0
    · have hdtq : dt < q := by omega
      simp only [hneg, if_true]
      have hcl' : ∀ (b : Bool) (x : ℤ),
          (if b then some dt else st.closest_lhs) = some x → x ∈ dates ∧ x < q := by
        intro b x hx
        rcases ite_some_cases hx with rfl | hx
        · exact ⟨hdt, hdtq⟩
        · exact hcl x hx
      by_cases hth : th < |dt - q|
      · simp only [hth, if_true]
        exact ⟨hl, hcl' _, hr, hcr⟩
      · simp only [hth, if_false, hneg, if_true]
        refine ⟨?_, hcl' _, hr, hcr⟩
        intro x hx
        rcases List.mem_append.mp hx with hx | hx
        · exact hl x hx
        · simp at hx; exact hx ▸ ⟨hdt, hdtq⟩
    · have hdtq : q < dt := by omega
      simp only [hneg, if_false]
      have hcr' : ∀ (b : Bool) (x : ℤ),
          (if b then some dt else st.closest_rhs) = some x → x ∈ dates ∧ q < x := by
        intro b x hx
        rcases ite_some_cases hx with rfl | hx
        · exact ⟨hdt, hdtq⟩
        · exact hcr x hx
      by_cases hth : th < |dt - q|
      · simp only [hth, if_true]
        exact ⟨hl, hcl, hr, hcr' _⟩
      · simp only [hth, if_false, hneg]
        refine ⟨hl, hcl, ?_, hcr' _⟩
        intro x hx
        rcases List.mem_append.mp hx with hx | hx
        · exact hr x hx
        · simp at hx; exact hx ▸ ⟨hdt, hdtq⟩

theorem foldl_fsir_inv (q th : ℤ) (dates : List ℤ) :
    ∀ (l : List ℤ) (st : FsirState), (∀ x ∈ l, x ∈ dates) → FsirInv q dates st →
      FsirInv q dates (l.foldl (fsirStep q th) st)
  | [], _, _, h => h
  | dt :: rest, st, hmem, h => by
      rw [List.foldl_cons]
      exact foldl_fsir_inv q th dates rest _ (fun x hx => hmem x (List.mem_cons_of_mem _ hx))
        (fsirStep_inv q th dates st dt (hmem dt (List.mem_cons_self _ _)) h)

theorem mem_fsir_left {q th x : ℤ} {dates : List ℤ}
    (hx : x ∈ (find_scenes_in_range q dates th true).1) : x ∈ dates ∧ x < q := by
  have hinv : FsirInv q dates (dates.foldl (fsirStep q th) fsirInit) :=
    foldl_fsir_inv q th dates dates fsirInit (fun _ hx => hx)
      ⟨by simp [fsirInit], by simp [fsirInit], by simp [fsirInit], by simp [fsirInit]⟩
  obtain ⟨hl, hcl, _, _⟩ := hinv
  unfold find_scenes_in_range at hx
  dsimp only at hx
  split at hx
  · rcases hc : (dates.foldl (fsirStep q th) fsirInit).closest_lhs with _ | c
    · rw [hc] at hx
      exact hl x hx
    · rw [hc] at hx
      simp at hx
      exact hx ▸ hcl c hc
  · exact hl x hx

theorem mem_fsir_right {q th x : ℤ} {dates : List ℤ}
    (hx : x ∈ (find_scenes_in_range q dates th true).2) : x ∈ dates ∧ q < x := by
  have hinv : FsirInv q dates (dates.foldl (fsirStep q th) fsirInit) :=
    foldl_fsir_inv q th dates dates fsirInit (fun _ hx => hx)
      ⟨by simp [fsirInit], by simp [fsirInit], by simp [fsirInit], by simp [fsirInit]⟩
  obtain ⟨_, _, hr, hcr⟩ := hinv
  unfold find_scenes_in_range at hx
  dsimp only at hx
  split at hx
  · rcases hc : (dates.foldl (fsirStep q th) fsirInit).closest_rhs with _ | c
    · rw [hc] at hx
      exact hr x hx
    · rw [hc] at hx
      simp at hx
      exact hx ▸ hcr c hc
  · exact hr x hx

theorem countP_lt_of_witness {l : List ℤ} {p q : ℤ → Bool} (hpq : ∀ x, p x = true → q x = true)
    {s : ℤ} (hs : s ∈ l) (hqs : q s = true) (hps : p s = false) :
    l.countP p < l.countP q := by
  induction l with
  | nil => cases hs
  | cons y ys ih =>
      rw [List.countP_cons, List.countP_cons]
      rcases List.mem_cons.mp hs with rfl | hmem
      · have hle : ys.countP p ≤ ys.countP q := List.countP_mono_left fun x _ => hpq x
        simp [hqs, hps]
        omega
      · have hlt := ih hmem
        have h2 : (if p y then 1 else 0) ≤ (if q y then 1 else 0) := by
          by_cases hp : p y = true
          · simp [hp, hpq y hp]
          · simp [hp]
        omega

theorem measure_of_rhs_tier {primary th t u : ℤ} {dates us : List ℤ}
    (hs2 : (find_scenes_in_range t dates th true).2 = u :: us) (hpt : primary < t) :
    coregMeasure primary dates (u :: us) < dates.countP fun x => decide (t < x) := by
  have hu : u ∈ dates ∧ t < u := mem_fsir_right (by rw [hs2]; exact List.mem_cons_self _ _)
  have hvmem : (u :: us).getLast (by simp) ∈ (find_scenes_in_range t dates th true).2 := by
    rw [hs2]; exact List.getLast_mem _
  set v := (u :: us).getLast (by simp) with hv
  have hvd : v ∈ dates ∧ t < v := mem_fsir_right hvmem
  have hgl : (u :: us).getLast? = some v := List.getLast?_eq_getLast _ _
  have hterm2 : (dates.countP fun x => decide (v < x)) < dates.countP fun x => decide (t < x) := by
    refine countP_lt_of_witness (fun x hx => ?_) hvd.1 (by simpa using hvd.2) (by simp)
    simp at hx ⊢
    omega
  have hterm1 : ¬ (u < primary) := by
    have := hu.2
    omega
  rw [coregMeasure]
  simp only [List.head?_cons, hgl, hterm1, if_false]
  have hpv : primary < v := lt_trans hpt hvd.2
  simp only [hpv, if_true]
  omega

theorem measure_of_lhs_tier {primary th a s : ℤ} {dates s1 : List ℤ}
    (hs1 : (find_scenes_in_range a dates th true).1 = s :: s1) (hap : a < primary) :
    coregMeasure primary dates (s :: s1) < dates.countP fun x => decide (x < a) := by
  have hs : s ∈ dates ∧ s < a := mem_fsir_left (by rw [hs1]; exact List.mem_cons_self _ _)
  have hvmem : (s :: s1).getLast (by simp) ∈ (find_scenes_in_range a dates th true).1 := by
    rw [hs1]; exact List.getLast_mem _
  set v := (s :: s1).getLast (by simp) with hv
  have hvd : v ∈ dates ∧ v < a := mem_fsir_left hvmem
  have hgl : (s :: s1).getLast? = some v := List.getLast?_eq_getLast _ _
  have hterm1 : (dates.countP fun x => decide (x < s)) < dates.countP fun x => decide (x < a) := by
    refine countP_lt_of_witness (fun x hx => ?_) hs.1 (by simpa using hs.2) (by simp)
    simp at hx ⊢
    omega
  have hsp : s < primary := lt_trans hs.2 hap
  have hvp : ¬ (primary < v) := by
    have := hvd.2
    omega
  rw [coregMeasure]
  simp only [List.head?_cons, hgl, hsp, if_true, hvp, if_false]
  omega

theorem coregMeasure_decreases {primary th : ℤ} {dates l : List ℤ}
    (hne : coregStep primary th dates l ≠ []) :
    coregMeasure primary dates (coregStep primary th dates l) < coregMeasure primary dates l := by
  rcases l with _ | ⟨a, rest⟩
  · simp [coregStep] at hne
  rcases hgl : (a :: rest).getLast? with _ | t
  · rw [List.getLast?_eq_none_iff] at hgl
    cases hgl
  have hstep : coregStep primary th dates (a :: rest) =
      (if a < primary then (find_scenes_in_range a dates th true).1 else [])
        ++ (if primary < t then (find_scenes_in_range t dates th true).2 else []) := by
    rw [coregStep, List.head?_cons, hgl]
  have hmu : coregMeasure primary dates (a :: rest) =
      (if a < primary then dates.countP fun x => decide (x < a) else 0)
        + (if primary < t then dates.countP fun x => decide (t < x) else 0) := by
    rw [coregMeasure, List.head?_cons, hgl]
  rw [hstep] at hne ⊢
  rw [hmu]
  by_cases hap : a < primary
  · rcases hs1 : (find_scenes_in_range a dates th true).1 with _ | ⟨s, s1⟩
    · -- left extension empty: the next tier is the right extension alone
      by_cases hpt : primary < t
      · rcases hs2 : (find_scenes_in_range t dates th true).2 with _ | ⟨u, us⟩
        · rw [hs1, hs2] at hne
          simp [hap, hpt] at hne
        · simp only [hap, if_true, hpt, hs1, hs2, List.nil_append]
          have := measure_of_rhs_tier hs2 hpt
          omega
      · rw [hs1] at hne
        simp [hap, hpt] at hne
    · -- left extension nonempty, headed by s
      have hs : s ∈ dates ∧ s < a := mem_fsir_left (by rw [hs1]; exact List.mem_cons_self _ _)
      have hterm1 : (dates.countP fun x => decide (x < s)) < dates.countP fun x => decide (x < a) := by
        refine countP_lt_of_witness (fun x hx => ?_) hs.1 (by simpa using hs.2) (by simp)
        simp at hx ⊢
        omega
      have hsp : s < primary := lt_trans hs.2 hap
      by_cases hpt : primary < t
      · rcases hs2 : (find_scenes_in_range t dates th true).2 with _ | ⟨u, us⟩
        · -- right extension empty: next tier is s :: s1
          simp only [hap, if_true, hpt, hs1, hs2, List.append_nil]
          have := measure_of_lhs_tier hs1 hap
          omega
        · -- both extensions nonempty
          simp only [hap, if_true, hpt, hs1, hs2]
          have hvmem : (u :: us).getLast (by simp) ∈ (find_scenes_in_range t dates th true).2 := by
            rw [hs2]; exact List.getLast_mem _
          set v := (u :: us).getLast (by simp) with hv
          have hvd : v ∈ dates ∧ t < v := mem_fsir_right hvmem
          have hglv : ((s :: s1) ++ u :: us).getLast? = some v := by
            rw [List.getLast?_append_of_ne_nil _ (by simp)]
            exact List.getLast?_eq_getLast _ _
          have hterm2 : (dates.countP fun x => decide (v < x)) ≤
              dates.countP fun x => decide (t < x) := by
            refine List.countP_mono_left fun x _ hx => ?_
            simp at hx ⊢
            have := hvd.2
            omega
          have hpv : primary < v := lt_trans hpt hvd.2
          rw [List.cons_append, coregMeasure]
          simp only [List.head?_cons]
          rw [show ((s :: (s1 ++ u :: us)).getLast? : Option ℤ) = some v from by
            rw [← List.cons_append]
            exact hglv]
          simp only [hsp, if_true, hpv, if_true]
          omega
      · -- right side closed: next tier is s :: s1
        simp only [hap, if_true, hpt, if_false, hs1, List.append_nil]
        have := measure_of_lhs_tier hs1 hap
        omega
  · -- first date not before primary: next tier is the right extension alone
    by_cases hpt : primary < t
    · rcases hs2 : (find_scenes_in_range t dates th true).2 with _ | ⟨u, us⟩
      · rw [hs2] at hne
        simp [hap, hpt] at hne
      · simp only [hap, if_false, hpt, if_true, hs2, List.nil_append]
        have := measure_of_rhs_tier hs2 hpt
        omega
    · simp [hap, hpt] at hne

theorem coregTreeAux_nil (primary th : ℤ) (dates : List ℤ) :
    ∀ fuel, coregTreeAux primary th dates fuel [] = [] := by
  intro fuel
  cases fuel <;> simp [coregTreeAux]

theorem coregTreeAux_stable (primary th : ℤ) (dates : List ℤ) :
    ∀ (n : ℕ) (l : List ℤ) (fuel1 fuel2 : ℕ),
      coregMeasure primary dates l ≤ n → n < fuel1 → n < fuel2 →
      coregTreeAux primary th dates fuel1 l = coregTreeAux primary th dates fuel2 l := by
  intro n
  induction n with
  | zero =>
      intro l f1 f2 hm h1 h2
      obtain ⟨f1a, rfl⟩ : ∃ k, f1 = k + 1 := ⟨f1 - 1, by omega⟩
      obtain ⟨f2a, rfl⟩ : ∃ k, f2 = k + 1 := ⟨f2 - 1, by omega⟩
      by_cases hl : l = []
      · subst hl
        simp [coregTreeAux]
      · simp only [coregTreeAux, hl, if_false]
        congr 1
        by_cases hs : coregStep primary th dates l = []
        · rw [hs, coregTreeAux_nil, coregTreeAux_nil]
        · exact absurd (coregMeasure_decreases hs) (by omega)
  | succ n ih =>
      intro l f1 f2 hm h1 h2
      obtain ⟨f1a, rfl⟩ : ∃ k, f1 = k + 1 := ⟨f1 - 1, by omega⟩
      obtain ⟨f2a, rfl⟩ : ∃ k, f2 = k + 1 := ⟨f2 - 1, by omega⟩
      by_cases hl : l = []
      · subst hl
        simp [coregTreeAux]
      · simp only [coregTreeAux, hl, if_false]
        congr 1
        by_cases hs : coregStep primary th dates l = []
        · rw [hs, coregTreeAux_nil, coregTreeAux_nil]
        · have hd := coregMeasure_decreases hs
          exact ih (coregStep primary th dates l) f1a f2a (by omega) (by omega) (by omega)

theorem coregTreeAux_length (primary th : ℤ) (dates : List ℤ) :
    ∀ (n : ℕ) (l : List ℤ) (fuel : ℕ), coregMeasure primary dates l ≤ n →
      (coregTreeAux primary th dates fuel l).length ≤ n + 1 := by
  intro n
  induction n with
  | zero =>
      intro l fuel hm
      rcases fuel with _ | fuel
      · simp [coregTreeAux]
      by_cases hl : l = []
      · subst hl
        simp [coregTreeAux]
      · simp only [coregTreeAux, hl, if_false, List.length_cons]
        by_cases hs : coregStep primary th dates l = []
        · rw [hs, coregTreeAux_nil]
          simp
        · exact absurd (coregMeasure_decreases hs) (by omega)
  | succ n ih =>
      intro l fuel hm
      rcases fuel with _ | fuel
      · simp [coregTreeAux]
      by_cases hl : l = []
      · subst hl
        simp [coregTreeAux]
      · simp only [coregTreeAux, hl, if_false, List.length_cons]
        by_cases hs : coregStep primary th dates l = []
        · rw [hs, coregTreeAux_nil]
          simp
        · have hd := coregMeasure_decreases hs
          have := ih (coregStep primary th dates l) fuel (by omega)
          omega

theorem coregMeasure_le (primary : ℤ) (dates l : List ℤ) :
    coregMeasure primary dates l ≤ 2 * dates.length := by
  have c1 : ∀ p : ℤ → Bool, dates.countP p ≤ dates.length := fun p => List.countP_le_length p
  unfold coregMeasure
  have hA : (match l.head? with
      | some h => if h < primary then dates.countP fun x => decide (x < h) else 0
      | none => 0) ≤ dates.length := by
    rcases l.head? with _ | h
    · simp
    · dsimp only
      split_ifs
      · exact c1 _
      · simp
  have hB : (match l.getLast? with
      | some t => if primary < t then dates.countP fun x => decide (t < x) else 0
      | none => 0) ≤ dates.length := by
    rcases l.getLast? with _ | t
    · simp
    · dsimp only
      split_ifs
      · exact c1 _
      · simp
  omega

/-! ## Helper lemmas: burst-overlap accumulation -/

theorem foldl_burstStep (ft st : ℚ) :
    ∀ (l : List (Option BurstSample)) (acc : OverlapAcc),
      l.foldl (burstStep ft st) acc =
        ⟨acc.samples + (acceptedOf ft st l).length,
         acc.sum + ((acceptedOf ft st l).map fun s => s.mean * s.fraction).sum,
         acc.sumWeight + ((acceptedOf ft st l).map fun s => s.fraction).sum⟩
  | [], acc => by simp [acceptedOf]
  | none :: rest, acc => by
      have := foldl_burstStep ft st rest acc
      simpa [acceptedOf, burstStep] using this
  | some s :: rest, acc => by
      by_cases h : sampleAccepted ft st s
      · have := foldl_burstStep ft st rest
          ⟨acc.samples + 1, acc.sum + s.mean * s.fraction, acc.sumWeight + s.fraction⟩
        simp [acceptedOf, burstStep, h, List.filter_cons, this]
        refine ⟨by omega, by ring, by ring⟩
      · have := foldl_burstStep ft st rest acc
        simp [acceptedOf, burstStep, h, List.filter_cons, this]

theorem calc_phase_offsets_spec (ft st : ℚ) (l : List (Option BurstSample)) :
    calc_phase_offsets ft st l =
      ⟨(acceptedOf ft st l).length,
       ((acceptedOf ft st l).map fun s => s.mean * s.fraction).sum,
       ((acceptedOf ft st l).map fun s => s.fraction).sum⟩ := by
  simpa [calc_phase_offsets] using foldl_burstStep ft st l ⟨0, 0, 0⟩

theorem subswathAverage_spec (ft st : ℚ) (l : List (Option BurstSample)) :
    subswathAverage (calc_phase_offsets ft st l) = wmean (acceptedOf ft st l) := by
  rw [calc_phase_offsets_spec]
  rcases h : acceptedOf ft st l with _ | ⟨a, as⟩ <;> simp [subswathAverage, wmean, h]

theorem S1_ok_inv (altRaw : ℚ) (linesOffset : ℤ) (ft st : ℚ)
    (iw1 iw2 iw3 : List (Option BurstSample)) (out : OverlapOut)
    (hok : S1_COREG_OVERLAP altRaw linesOffset ft st iw1 iw2 iw3 = .ok out) :
    out = { iw1_mean := subswathAverage (calc_phase_offsets ft st iw1)
            iw2_mean := subswathAverage (calc_phase_offsets ft st iw2)
            iw3_mean := subswathAverage (calc_phase_offsets ft st iw3)
            average_all := average_all ft st iw1 iw2 iw3
            azimuth_pixel_offset :=
              round6 (-dpix_factor_calc altRaw linesOffset * average_all ft st iw1 iw2 iw3) } := by
  unfold S1_COREG_OVERLAP at hok
  split at hok
  · rw [Except.ok.injEq] at hok
    exact hok.symm
  · exact absurd hok (by simp)

theorem average_all_spec (ft st : ℚ) (iw1 iw2 iw3 : List (Option BurstSample)) :
    average_all ft st iw1 iw2 iw3 =
      wmean (acceptedOf ft st iw1 ++ acceptedOf ft st iw2 ++ acceptedOf ft st iw3) := by
  simp [average_all, sum_all, sum_weight_all, calc_phase_offsets_spec, wmean]
  congr 1 <;> ring

theorem S1_error_iff (altRaw : ℚ) (lo : ℤ) (ft st : ℚ)
    (iw1 iw2 iw3 : List (Option BurstSample)) :
    S1_COREG_OVERLAP altRaw lo ft st iw1 iw2 iw3 = .error () ↔
      acceptedOf ft st iw1 = [] ∧ acceptedOf ft st iw2 = [] ∧ acceptedOf ft st iw3 = [] := by
  have hlen : samples_all ft st iw1 iw2 iw3 =
      (acceptedOf ft st iw1).length + (acceptedOf ft st iw2).length
        + (acceptedOf ft st iw3).length := by
    simp [samples_all, calc_phase_offsets_spec]
  rw [S1_COREG_OVERLAP]
  split
  case isTrue h =>
    constructor
    · intro he
      exact absurd he (by simp)
    · rintro ⟨h1, h2, h3⟩
      rw [hlen, h1, h2, h3] at h
      simp at h
  case isFalse h =>
    rw [hlen] at h
    constructor
    · intro _
      refine ⟨List.length_eq_zero.mp (by omega), List.length_eq_zero.mp (by omega),
        List.length_eq_zero.mp (by omega)⟩
    · intro _
      rfl

/-! ## Helper lemmas: the fine-coregistration iteration loop -/

theorem fineLoopAux_error_now (target : ℚ) (step : ℕ → Except Unit ℚ) (rem it : ℕ)
    (daz : Option ℚ) (off : OffModel) (h : step it = .error ()) :
    fineLoopAux target step (rem + 1) it daz off =
      (daz, if it = 1 then .coarseDoff else off, it) := by
  simp [fineLoopAux, h]

theorem fineLoopAux_skip (target : ℚ) (step : ℕ → Except Unit ℚ) (rem it : ℕ)
    (daz : Option ℚ) (off : OffModel) (d : ℚ) (h : step it = .ok d) (hgt : target < |d|) :
    fineLoopAux target step (rem + 1) it daz off =
      fineLoopAux target step rem (it + 1) (some d) (bumpOff off) := by
  rw [fineLoopAux, h]
  simp [not_le.mpr hgt]

theorem fineLoopAux_advance (target : ℚ) (step : ℕ → Except Unit ℚ) :
    ∀ (k rem : ℕ), 1 ≤ k → k ≤ rem →
      (∀ i, 1 ≤ i → i ≤ k → ∃ di, step i = .ok di ∧ target < |di|) →
      ∃ d, step k = .ok d ∧
        fineLoopAux target step rem 1 none .coarseInit =
          fineLoopAux target step (rem - k) (k + 1) (some d) (.fineUpdated k) := by
  intro k
  induction k with
  | zero => omega
  | succ n ih =>
      intro rem hk hkr hsteps
      rcases Nat.eq_zero_or_pos n with hn | hn
      · subst hn
        obtain ⟨d1, hd1, hg1⟩ := hsteps 1 le_rfl le_rfl
        obtain ⟨rema, rfl⟩ : ∃ r, rem = r + 1 := ⟨rem - 1, by omega⟩
        refine ⟨d1, hd1, ?_⟩
        rw [fineLoopAux_skip target step rema 1 none .coarseInit d1 hd1 hg1]
        simp [bumpOff]
      · obtain ⟨d, hd, heq⟩ := ih rem hn (by omega) fun i h1 h2 => hsteps i h1 (by omega)
        obtain ⟨da, hda, hga⟩ := hsteps (n + 1) (by omega) le_rfl
        refine ⟨da, hda, ?_⟩
        rw [heq]
        obtain ⟨r2, hr2⟩ : ∃ r, rem - n = r + 1 := ⟨rem - n - 1, by omega⟩
        rw [hr2, fineLoopAux_skip target step r2 (n + 1) (some d) (.fineUpdated n) da hda hga]
        have hr3 : r2 = rem - (n + 1) := by omega
        rw [hr3]
        simp [bumpOff]

theorem fine_coregistration_first_error (target : ℚ) (step : ℕ → Except Unit ℚ)
    (maxIteration : ℕ) (h1 : 1 ≤ maxIteration) (herr : step 1 = .error ()) :
    fine_coregistration target step maxIteration =
      { daz := none, off := .coarseDoff, lastIteration := 1, warned := true,
        completeFail := true } := by
  obtain ⟨m, rfl⟩ : ∃ m, maxIteration = m + 1 := ⟨maxIteration - 1, by omega⟩
  unfold fine_coregistration
  rw [fineLoopAux_error_now target step m 1 none .coarseInit herr]
  simp

theorem fine_coregistration_later_error (target : ℚ) (step : ℕ → Except Unit ℚ)
    (maxIteration j : ℕ) (d : ℚ) (h2 : 2 ≤ j) (hj : j ≤ maxIteration)
    (hchain : ∀ i, 1 ≤ i → i < j → ∃ di, step i = .ok di ∧ target < |di|)
    (herr : step j = .error ()) (hd : step (j - 1) = .ok d) :
    fine_coregistration target step maxIteration =
      { daz := some d, off := .fineUpdated (j - 1), lastIteration := j, warned := true,
        completeFail := false } := by
  obtain ⟨dk, hdk, heq⟩ := fineLoopAux_advance target step (j - 1) maxIteration (by omega)
    (by omega) fun i hi hik => hchain i hi (by omega)
  have hdkd : d = dk := by
    rw [hd] at hdk
    injection hdk
  subst hdkd
  obtain ⟨dj, hdj, hgj⟩ := hchain (j - 1) (by omega) (by omega)
  have hdjd : dj = d := by
    rw [hd] at hdj
    injection hdj with hh
    exact hh.symm
  subst hdjd
  unfold fine_coregistration
  rw [heq]
  have hj1 : (j - 1) + 1 = j := by omega
  rw [hj1]
  obtain ⟨r2, hr2⟩ : ∃ r, maxIteration - (j - 1) = r + 1 := ⟨maxIteration - (j - 1) - 1, by omega⟩
  rw [hr2, fineLoopAux_error_now target step r2 j (some dj) (.fineUpdated (j - 1)) herr]
  have hjne : ¬ (j = 1) := by omega
  simp [hjne, hgj]

/-! ## Claim C1: node-boundary failure isolation

The claim says every task node catches processing errors at the node
boundary, writes the `FAILED` sentinel, and returns without propagating.
The code does not: `ProcessIFG.run` has its exception handler commented
out, so a raising body escapes `run` with no status file written at all;
`ProcessBackscatter.run` has a handler, but its first statement uses the
unbound name `log`, so the handler raises `NameError` before `failed`
can be set, the `finally` block writes an empty (success) marker, and
the `NameError` propagates. -/

/-- C1: on a raising processing body, `ProcessIFG.run` writes no status
file and lets the exception escape, and `ProcessBackscatter.run` writes
the success payload while letting a `NameError` escape; neither matches
the catch-write-`FAILED`-return contract. -/
theorem C1_node_failure_not_isolated :
    processIFG_run .raises = (none, some .procError)
      ∧ processBackscatter_run .raises = (some "", some .nameError)
      ∧ processIFG_run .raises ≠ nodeBoundaryContract
      ∧ processBackscatter_run .raises ≠ nodeBoundaryContract := by
  refine ⟨rfl, rfl, ?_, ?_⟩ <;> decide

/-! ## Claim C2: one inbound coregistration edge per non-reference date

The tier partition produced by `create_secondary_coreg_tree` is not at
issue here; the edge derivation is.  In `get_coreg_date_pairs` the
`pairs.append((coreg_ref_scene, slc_scene))` statement is indented at the
level of the `for slc_scene in list_date_strings:` loop, not inside it,
so every tier after the first contributes exactly one pair — the one for
the tier's final scene — and all other dates of that tier get no inbound
edge. -/

/-- C2: with reference scene `0` and dates `{0, 60, 100, 110}` at the
default 63-day threshold, the builder produces tiers `[60]` and
`[100, 110]`, but the pair derivation emits only `(0,60)` and
`(60,110)`: date `100` is the target of no coregistration edge. -/
theorem C2_missing_edge_for_tier_date :
    create_secondary_coreg_tree 0 [0, 60, 100, 110] 63 = [[60], [100, 110]]
      ∧ get_coreg_date_pairs 0 [[60], [100, 110]] = .ok [(0, 60), (60, 110)]
      ∧ ([(0, 60), (60, 110)].filter fun q : ℤ × ℤ => q.2 = 100).length = 0 := by
  refine ⟨by decide, by decide, by decide⟩

/-! ## Claim C3: closest-date tracking in `find_scenes_in_range`

The source updates `closest_lhs_diff = dt_diff` unconditionally — outside
the `is_closer` guard — so each candidate is compared against the
previous element's difference instead of the best difference so far.  On
date lists that are not sorted this tracks the wrong date: with pivot 0,
dates `[-40, -100, -50]` and threshold 30, the fallback substitutes -50
although -40 is the closest left-side candidate.  The function's own
docstring ("the closest date from each side will be used") and the spec
promise the closest date.  The spec's worked example (sorted input) does
hold. -/

/-- C3: on the unsorted list `[-40, -100, -50]` with pivot 0 and
threshold 30 the left fallback returns `[-50]` even though `-40` is
strictly closer; on the spec's sorted example the expected
`([-1], [200])` is produced. -/
theorem C3_closest_tracking_broken :
    find_scenes_in_range 0 [-40, -100, -50] 30 true = ([-50], [])
      ∧ (-40 : ℤ) ∈ [-40, -100, -50]
      ∧ |(-40 : ℤ) - 0| < |(-50 : ℤ) - 0|
      ∧ find_scenes_in_range 0 [-100, -1, 200] 63 true = ([-1], [200]) := by
  refine ⟨by decide, by decide, by decide, by decide⟩

/-! ## Claim C4: burst-sample acceptance gate and weighted averages -/

/-- C4: a burst-pair sample is accepted iff its valid fraction strictly
exceeds the fraction threshold and its phase stdev is strictly below the
stdev threshold; the per-sample weight is `fraction / (stdev + 0.1)²`;
the per-subswath average and (for a non-raising call) the scene-level
average are the fraction-weighted means over the accepted samples; and on
the spec's example only the first sample is accepted and the scene
average is exactly `0.1`. -/
theorem C4_weighted_average :
    (∀ ft st s, sampleAccepted ft st s = true ↔ ft < s.fraction ∧ s.stdev < st)
    ∧ (∀ s : BurstSample, sampleWeight s = s.fraction / (s.stdev + 1/10)^2)
    ∧ (∀ ft st bursts,
        subswathAverage (calc_phase_offsets ft st bursts) = wmean (acceptedOf ft st bursts))
    ∧ (∀ altRaw linesOffset ft st iw1 iw2 iw3 out,
        S1_COREG_OVERLAP altRaw linesOffset ft st iw1 iw2 iw3 = .ok out →
          out.average_all =
              wmean (acceptedOf ft st iw1 ++ acceptedOf ft st iw2 ++ acceptedOf ft st iw3)
            ∧ out.iw1_mean = wmean (acceptedOf ft st iw1)
            ∧ out.iw2_mean = wmean (acceptedOf ft st iw2)
            ∧ out.iw3_mean = wmean (acceptedOf ft st iw3))
    ∧ acceptedOf (1/5) (3/10) [some ⟨1/10, 1/20, 9/10⟩, some ⟨-1/5, 1/2, 1/20⟩]
        = [⟨1/10, 1/20, 9/10⟩]
    ∧ (S1_COREG_OVERLAP 1 1 (1/5) (3/10)
          [some ⟨1/10, 1/20, 9/10⟩, some ⟨-1/5, 1/2, 1/20⟩] [] []).map
        (fun o => o.average_all) = .ok (1/10) := by
  refine ⟨?_, ?_, subswathAverage_spec, ?_, ?_, ?_⟩
  · intro ft st s
    simp [sampleAccepted]
  · intro s
    rw [sampleWeight, div_div, ← sq]
  · intro altRaw lo ft st iw1 iw2 iw3 out hok
    rw [S1_ok_inv altRaw lo ft st iw1 iw2 iw3 out hok]
    exact ⟨by rw [average_all_spec], subswathAverage_spec ft st iw1,
      subswathAverage_spec ft st iw2, subswathAverage_spec ft st iw3⟩
  · norm_num [acceptedOf, sampleAccepted, List.filter_cons, List.filterMap_cons]
  · have hs : 0 < samples_all (1/5) (3/10)
        [some ⟨1/10, 1/20, 9/10⟩, some ⟨-1/5, 1/2, 1/20⟩] [] [] := by
      norm_num [samples_all, calc_phase_offsets, burstStep, sampleAccepted]
    have havg : average_all (1/5) (3/10)
        [some ⟨1/10, 1/20, 9/10⟩, some ⟨-1/5, 1/2, 1/20⟩] [] [] = 1/10 := by
      norm_num [average_all, sum_all, sum_weight_all, calc_phase_offsets, burstStep,
        sampleAccepted]
    rw [S1_COREG_OVERLAP, if_pos hs]
    exact congrArg Except.ok havg

/-- Witness for C4: the non-raising hypothesis discharged at the spec's
example input, whose full output record is computed explicitly. -/
theorem C4_weighted_average_witness :
    S1_COREG_OVERLAP 1 1 (1/5) (3/10)
        [some ⟨1/10, 1/20, 9/10⟩, some ⟨-1/5, 1/2, 1/20⟩] [] []
      = .ok ⟨1/10, 0, 0, 1/10, -(9/1000000)⟩
    ∧ (⟨1/10, 0, 0, 1/10, -(9/1000000)⟩ : OverlapOut).average_all =
        wmean (acceptedOf (1/5) (3/10) [some ⟨1/10, 1/20, 9/10⟩, some ⟨-1/5, 1/2, 1/20⟩]
          ++ acceptedOf (1/5) (3/10) [] ++ acceptedOf (1/5) (3/10) []) := by
  have hs : 0 < samples_all (1/5) (3/10)
      [some ⟨1/10, 1/20, 9/10⟩, some ⟨-1/5, 1/2, 1/20⟩] [] [] := by
    norm_num [samples_all, calc_phase_offsets, burstStep, sampleAccepted]
  have hok : S1_COREG_OVERLAP 1 1 (1/5) (3/10)
      [some ⟨1/10, 1/20, 9/10⟩, some ⟨-1/5, 1/2, 1/20⟩] [] []
      = .ok ⟨1/10, 0, 0, 1/10, -(9/1000000)⟩ := by
    rw [S1_COREG_OVERLAP, if_pos hs]
    norm_num [average_all, sum_all, sum_weight_all, calc_phase_offsets, burstStep,
      sampleAccepted, subswathAverage, dpix_factor_calc, dt_calc, dDC_calc, round6, round_eq,
      OverlapOut.mk.injEq]
  exact ⟨hok, (C4_weighted_average.2.2.2.1 1 1 (1/5) (3/10) _ _ _ _ hok).1⟩

/-! ## Claim C5: total sample exhaustion raises a recoverable error -/

/-- C5: `S1_COREG_OVERLAP` raises (`Except.error`) exactly when zero
samples are accepted across all three subswaths — so with at least one
accepted sample no such error is raised — and its caller
`fine_coregistration` catches the error: a first-iteration failure yields
a normal `FineResult` (falling back to the coarse model, `daz = none`,
distinguishable from the converged and budget-exhausted outcomes, which
carry `daz = some _`). -/
theorem C5_total_sample_exhaustion :
    (∀ altRaw linesOffset ft st iw1 iw2 iw3,
        S1_COREG_OVERLAP altRaw linesOffset ft st iw1 iw2 iw3 = .error () ↔
          acceptedOf ft st iw1 = [] ∧ acceptedOf ft st iw2 = [] ∧ acceptedOf ft st iw3 = [])
    ∧ (∀ target step maxIteration, 1 ≤ maxIteration → step 1 = .error () →
        fine_coregistration target step maxIteration =
          { daz := none, off := .coarseDoff, lastIteration := 1, warned := true,
            completeFail := true }) :=
  ⟨S1_error_iff, fine_coregistration_first_error⟩

/-- Witness for C5: the erroring-first-iteration hypotheses discharged at
a concrete step function and budget. -/
theorem C5_total_sample_exhaustion_witness :
    (1 : ℕ) ≤ 5
    ∧ fine_coregistration (1/100) (fun _ => .error ()) 5 =
        { daz := none, off := .coarseDoff, lastIteration := 1, warned := true,
          completeFail := true } :=
  ⟨by norm_num, C5_total_sample_exhaustion.2 (1/100) (fun _ => .error ()) 5 (by norm_num) rfl⟩

/-! ## Claim C6: first-iteration failure falls back to the coarse model -/

/-- C6: if the very first fine iteration's burst-overlap refinement
raises, the coarse `.doff` is copied over as the final offset model and
the accuracy warning records the complete failure; if iteration `j ≥ 2`
is the first to raise (all earlier iterations succeeded without reaching
the convergence target), the offset model keeps the `j-1`-th successful
update and no complete-failure line is written. -/
theorem C6_first_iteration_fallback :
    (∀ target step maxIteration, 1 ≤ maxIteration → step 1 = .error () →
        fine_coregistration target step maxIteration =
          { daz := none, off := .coarseDoff, lastIteration := 1, warned := true,
            completeFail := true })
    ∧ (∀ target step maxIteration j d, 2 ≤ j → j ≤ maxIteration →
        (∀ i, 1 ≤ i → i < j → ∃ di, step i = .ok di ∧ target < |di|) →
        step j = .error () → step (j - 1) = .ok d →
        fine_coregistration target step maxIteration =
          { daz := some d, off := .fineUpdated (j - 1), lastIteration := j, warned := true,
            completeFail := false }) :=
  ⟨fine_coregistration_first_error,
    fun target step maxIteration j d h2 hj hchain herr hd =>
      fine_coregistration_later_error target step maxIteration j d h2 hj hchain herr hd⟩

/-- Witness for C6: both branches discharged at concrete step functions —
an immediate failure, and a failure at iteration 2 after a successful
non-converged iteration 1. -/
theorem C6_first_iteration_fallback_witness :
    fine_coregistration (1/100) (fun _ => .error ()) 5 =
      { daz := none, off := .coarseDoff, lastIteration := 1, warned := true,
        completeFail := true }
    ∧ fine_coregistration (1/100) (fun i => if i = 1 then .ok (1/2) else .error ()) 5 =
        { daz := some (1/2), off := .fineUpdated 1, lastIteration := 2, warned := true,
          completeFail := false } := by
  constructor
  · exact C6_first_iteration_fallback.1 (1/100) (fun _ => .error ()) 5 (by norm_num) rfl
  · have h := C6_first_iteration_fallback.2 (1/100)
      (fun i => if i = 1 then .ok (1/2) else .error ()) 5 2 (1/2) (by norm_num) (by norm_num)
      (fun i hi hij => ⟨1/2, by
        interval_cases i
        refine ⟨by norm_num, ?_⟩
        rw [abs_of_pos (by norm_num : (0 : ℚ) < 1/2)]
        norm_num⟩) (by norm_num) (by norm_num)
    simpa using h

/-! ## Claim C7: resume with a complete, unchanged filesystem

With every pair's geocode outputs present and no `FAILED` status line,
`trigger_resume` computes an empty re-processing set and unlinks no
per-pair status file.  The claim as stated additionally demands that no
completion marker at all is removed, but the source removes its own
aggregate status output unconditionally (`if output.exists():
output.remove()`) — that is the designed mechanism for re-triggering the
scan, and it happens even when nothing needs re-processing. -/

/-- C7 counterexample: in a fully complete state (outputs present, no
failures) the resume scan still removes the aggregate completion marker
of the `CreateProcessIFGs` task itself, refuting "removes no completion
markers"; the re-processing set and the per-pair removals are empty. -/
theorem C7_aggregate_marker_removed :
    trigger_resume ⟨true, [(20210101, 20210113)], [(20210101, 20210113)],
        fun _ => ⟨true, true, []⟩⟩ true
      = ⟨true, [], []⟩
    ∧ (trigger_resume ⟨true, [(20210101, 20210113)], [(20210101, 20210113)],
        fun _ => ⟨true, true, []⟩⟩ true).aggRemoved = true := by
  refine ⟨by decide, by decide⟩

/-- C7 (amended): when every listed pair has a geocode output present and
no status file's first line contains `FAILED`, `trigger_resume` computes
an empty re-processing set and removes no per-pair completion marker;
its own aggregate marker is removed exactly when it exists. -/
theorem C7_resume_idempotent :
    ∀ (fs : IfgResumeFs) (reprocessFailedScenes : Bool),
      (∀ p ∈ fs.listedPairs,
        (fs.pairFs p).cohGeoExists = true ∨ (fs.pairFs p).cohGeoTiffExists = true) →
      (∀ p ∈ fs.statusFilePairs, firstLineFailed (fs.pairFs p).statusLines = false) →
      trigger_resume fs reprocessFailedScenes =
        ⟨fs.aggOutputExists, [], []⟩ := by
  intro fs rf hout hfail
  unfold trigger_resume
  have hmiss : fs.listedPairs.filter
      (fun p => !(fs.pairFs p).cohGeoExists && !(fs.pairFs p).cohGeoTiffExists) = [] := by
    rw [List.filter_eq_nil_iff]
    intro p hp
    rcases hout p hp with h | h <;> simp [h]
  have hfailed : (if rf then
      fs.statusFilePairs.filter (fun p => firstLineFailed (fs.pairFs p).statusLines)
      else []) = [] := by
    split
    · rw [List.filter_eq_nil_iff]
      intro p hp
      simp [hfail p hp]
    · rfl
  rw [hmiss, hfailed]
  simp

/-- Witness for C7: the all-complete hypotheses discharged at a concrete
one-pair filesystem state. -/
theorem C7_resume_idempotent_witness :
    trigger_resume ⟨false, [(20210101, 20210113)], [(20210101, 20210113)],
        fun _ => ⟨true, true, []⟩⟩ true
      = ⟨false, [], []⟩ :=
  C7_resume_idempotent _ true (fun _ _ => Or.inl rfl) (fun _ _ => rfl)

/-! ## Claim C8: tree-builder termination and the tier-count bound

Termination holds for every date list and threshold, but the spec's tier
bound `ceil(span / threshold) + 1` does not: dates packed in
(threshold, 1-day) steps force two tiers per `threshold + 1` days.  The
provable bound is `2 * |dates| + 1` (each tier strictly shrinks the
termination measure, which is at most twice the number of dates). -/

/-- C8 counterexample: with dates `{-192, -191, -128, -127, -64, -63, 0}`,
reference `0` and the default threshold 63, the builder produces 6 tiers,
while the claimed bound is `ceil(192 / 63) + 1 = 5`. -/
theorem C8_tier_bound_violated :
    (create_secondary_coreg_tree 0 [-192, -191, -128, -127, -64, -63, 0] 63).length = 6
    ∧ (0 : ℤ) - (-192) = 192
    ∧ ceilDivNat 192 63 + 1 = 5
    ∧ ¬ ((create_secondary_coreg_tree 0 [-192, -191, -128, -127, -64, -63, 0] 63).length
          ≤ ceilDivNat 192 63 + 1) := by
  refine ⟨by decide, by decide, by decide, by decide⟩

/-- C8 (amended): for every reference date, date list and threshold the
tree-builder loop terminates — any fuel of at least `2·|dates| + 1`
yields the same (fixed-point) tier list — and the number of tiers is at
most `2·|dates| + 1` (the spec's `ceil(span/threshold) + 1` bound fails,
see the counterexample). -/
theorem C8_tree_termination :
    ∀ (primary th : ℤ) (dates : List ℤ) (fuel : ℕ), 2 * dates.length + 1 ≤ fuel →
      coregTreeAux primary th dates fuel
          ((find_scenes_in_range primary dates th true).1
            ++ (find_scenes_in_range primary dates th true).2)
        = create_secondary_coreg_tree primary dates th
      ∧ (create_secondary_coreg_tree primary dates th).length ≤ 2 * dates.length + 1 := by
  intro primary th dates fuel hf
  have hm : coregMeasure primary dates
      ((find_scenes_in_range primary dates th true).1
        ++ (find_scenes_in_range primary dates th true).2) ≤ 2 * dates.length :=
    coregMeasure_le primary dates _
  constructor
  · exact coregTreeAux_stable primary th dates (2 * dates.length) _ fuel
      (2 * dates.length + 1) hm (by omega) (by omega)
  · exact coregTreeAux_length primary th dates (2 * dates.length) _ (2 * dates.length + 1) hm

/-- Witness for C8: the fuel hypothesis discharged at a concrete stack. -/
theorem C8_tree_termination_witness :
    coregTreeAux 0 63 [0, 60, 100, 110] 12
        ((find_scenes_in_range 0 [0, 60, 100, 110] 63 true).1
          ++ (find_scenes_in_range 0 [0, 60, 100, 110] 63 true).2)
      = create_secondary_coreg_tree 0 [0, 60, 100, 110] 63
    ∧ (create_secondary_coreg_tree 0 [0, 60, 100, 110] 63).length ≤ 2 * 4 + 1 := by
  have h := C8_tree_termination 0 63 [0, 60, 100, 110] 12 (by norm_num)
  simpa using h

/-! ## Claim C9: the rounded azimuth correction constant -/

/-- C9: a non-raising `S1_COREG_OVERLAP` returns the azimuth pixel
correction `round6(-dpix_factor * average_all)` where the constant is
computed once from the first subswath's burst timing parameters as
`dpix_factor = round6(dt / alt)`, `dt = round6(0.159154 / dDC)`,
`dDC = round6(1739.43 * alt * lines_offset)` with `alt` the 6-digit
rounding of the azimuth line time, and `round6` rounds to 6 decimal
digits (the nearest multiple of 10⁻⁶). -/
theorem C9_rounded_correction :
    (∀ altRaw linesOffset ft st iw1 iw2 iw3 out,
        S1_COREG_OVERLAP altRaw linesOffset ft st iw1 iw2 iw3 = .ok out →
          out.azimuth_pixel_offset =
            round6 (-dpix_factor_calc altRaw linesOffset * out.average_all))
    ∧ (∀ (altRaw : ℚ) (linesOffset : ℤ), dpix_factor_calc altRaw linesOffset =
        round6 (dt_calc altRaw linesOffset / round6 altRaw))
    ∧ (∀ (altRaw : ℚ) (linesOffset : ℤ), dt_calc altRaw linesOffset =
        round6 (159154/1000000 / dDC_calc altRaw linesOffset))
    ∧ (∀ (altRaw : ℚ) (linesOffset : ℤ), dDC_calc altRaw linesOffset =
        round6 (173943/100 * round6 altRaw * (linesOffset : ℚ)))
    ∧ (∀ q : ℚ, round6 q = ((round (q * 1000000) : ℤ) : ℚ) / 1000000) := by
  refine ⟨?_, fun _ _ => rfl, fun _ _ => rfl, fun _ _ => rfl, fun _ => rfl⟩
  intro altRaw lo ft st iw1 iw2 iw3 out hok
  rw [S1_ok_inv altRaw lo ft st iw1 iw2 iw3 out hok]

/-- Witness for C9: the non-raising hypothesis discharged at a concrete
input, together with the concrete value of the constant for an
S1-typical azimuth line time of 0.002056 s and 1350-line burst offset. -/
theorem C9_rounded_correction_witness :
    S1_COREG_OVERLAP (2056/1000000) 1350 (1/5) (3/10) [some ⟨1/10, 1/20, 9/10⟩] [] []
      = .ok ⟨1/10, 0, 0, 1/10, -(1605/1000000)⟩
    ∧ (⟨1/10, 0, 0, 1/10, -(1605/1000000)⟩ : OverlapOut).azimuth_pixel_offset =
        round6 (-dpix_factor_calc (2056/1000000) 1350
          * (⟨1/10, 0, 0, 1/10, -(1605/1000000)⟩ : OverlapOut).average_all)
    ∧ dpix_factor_calc (2056/1000000) 1350 = 16051/1000000 := by
  have hs : 0 < samples_all (1/5) (3/10) [some ⟨1/10, 1/20, 9/10⟩] [] [] := by
    norm_num [samples_all, calc_phase_offsets, burstStep, sampleAccepted]
  have hk : dpix_factor_calc (2056/1000000) 1350 = 16051/1000000 := by
    norm_num [dpix_factor_calc, dt_calc, dDC_calc, round6, round_eq]
  have hok : S1_COREG_OVERLAP (2056/1000000) 1350 (1/5) (3/10) [some ⟨1/10, 1/20, 9/10⟩] [] []
      = .ok ⟨1/10, 0, 0, 1/10, -(1605/1000000)⟩ := by
    rw [S1_COREG_OVERLAP, if_pos hs]
    refine congrArg Except.ok ?_
    have havg : average_all (1/5) (3/10) [some ⟨1/10, 1/20, 9/10⟩] [] [] = 1/10 := by
      norm_num [average_all, sum_all, sum_weight_all, calc_phase_offsets, burstStep,
        sampleAccepted]
    rw [havg, hk]
    norm_num [subswathAverage, calc_phase_offsets, burstStep, sampleAccepted, round6,
      round_eq, OverlapOut.mk.injEq]
  exact ⟨hok, C9_rounded_correction.1 (2056/1000000) 1350 (1/5) (3/10) _ _ _ _ hok, hk⟩

/-! ## Claim C10: READ_TAB parses one record per non-empty line -/

/-- C10: for a tab file whose first three non-empty lines (as many as
exist) each carry three whitespace-separated fields, `READ_TAB` returns a
triple whose i-th component is the record of the i-th non-empty line when
present and `none` otherwise — the first component is always a plain
(non-optional) record — and a file with no non-empty lines makes it raise
instead of returning. -/
theorem C10_read_tab :
    ∀ fileLines : List String,
      (∀ l ∈ (fileLines.filter fun l => hasContent l).take 3, (mkTabRecord l).isSome) →
      ((fileLines.filter fun l => hasContent l) = [] → READ_TAB fileLines = .error ())
      ∧ (∀ l1 rest, (fileLines.filter fun l => hasContent l) = l1 :: rest →
          ∃ r1, mkTabRecord l1 = some r1 ∧
            READ_TAB fileLines = .ok (r1, rest[0]?.bind mkTabRecord, rest[1]?.bind mkTabRecord)) := by
  intro fileLines hparse
  constructor
  · intro hnil
    rw [READ_TAB, hnil]
  · intro l1 rest hcons
    rw [hcons] at hparse
    have h1 : (mkTabRecord l1).isSome := hparse l1 (by simp)
    obtain ⟨r1, hr1⟩ := Option.isSome_iff_exists.mp h1
    refine ⟨r1, hr1, ?_⟩
    rcases rest with _ | ⟨l2, rest2⟩
    · simp [READ_TAB, hcons, hr1]
    · have h2 : (mkTabRecord l2).isSome := hparse l2 (by simp)
      obtain ⟨r2, hr2⟩ := Option.isSome_iff_exists.mp h2
      rcases rest2 with _ | ⟨l3, rest3⟩
      · simp [READ_TAB, hcons, hr1, hr2]
      · have h3 : (mkTabRecord l3).isSome := hparse l3 (by simp)
        obtain ⟨r3, hr3⟩ := Option.isSome_iff_exists.mp h3
        simp [READ_TAB, hcons, hr1, hr2, hr3]

/-- Witness for C10: the parse hypotheses discharged at a concrete
two-subswath tab file with an interleaved blank line. -/
theorem C10_read_tab_witness :
    READ_TAB ["a.slc a.par a.tops", "", "b.slc b.par b.tops"] =
      .ok (⟨"a.slc", "a.par", "a.tops"⟩, some ⟨"b.slc", "b.par", "b.tops"⟩, none) := by
  have h := (C10_read_tab ["a.slc a.par a.tops", "", "b.slc b.par b.tops"]
    (by decide)).2 "a.slc a.par a.tops" ["b.slc b.par b.tops"] (by decide)
  obtain ⟨r1, hr1, hres⟩ := h
  have hr1v : r1 = ⟨"a.slc", "a.par", "a.tops"⟩ := by
    have hv : mkTabRecord "a.slc a.par a.tops" = some ⟨"a.slc", "a.par", "a.tops"⟩ := by decide
    rw [hv] at hr1
    injection hr1 with hh
    exact hh.symm
  rw [hres, hr1v]
  decide

end PyGamma
